import Mathlib

/-!
Verification of the photon-packet launch subsystem of the SKIRT
radiative-transfer engine against its natural-language specification.

The repository slice contains, under src/SKIRT/core/:
 - SourceSystem.hpp       (declarations and the biased allocation formula,
                           documented in the class header; the function
                           bodies of prepareForlaunch and launch are not in
                           the slice and are modelled from the spec),
 - ImportedMedium.cpp     (full definitions, embedded below),
 - gasContinuumEmissionSEDFamily.cpp and gasLineEmissionSEDFamily.cpp
                          (full definitions, embedded below),
 - VoronoiMeshGeometry.hpp (documentation of the snapshot density policy).

Real numbers computed by the C++ code in double precision are embedded as
exact rationals.
-/

/-! ### Generic list helpers -/

/-- Division with the convention that anything divided by zero is zero,
mirroring the guarded divisions of the allocation formula. -/
def safeDiv (a b : ℚ) : ℚ := if b = 0 then 0 else a / b

theorem safeDiv_nonneg {a b : ℚ} (ha : 0 ≤ a) (hb : 0 ≤ b) : 0 ≤ safeDiv a b := by
  unfold safeDiv
  split
  · exact le_refl 0
  · exact div_nonneg ha hb

theorem safeDiv_of_ne {a b : ℚ} (hb : b ≠ 0) : safeDiv a b = a / b := if_neg hb

theorem safeDiv_zero_num (b : ℚ) : safeDiv 0 b = 0 := by
  unfold safeDiv
  split
  · rfl
  · exact zero_div b

theorem sum_map_div (l : List ℚ) (c : ℚ) : (l.map fun q => q / c).sum = l.sum / c := by
  induction l with
  | nil => simp
  | cons a l ih => simp [ih, add_div]

theorem sum_map_mul_const (l : List ℚ) (c : ℚ) :
    (l.map fun q => q * c).sum = l.sum * c := by
  induction l with
  | nil => simp
  | cons a l ih => simp [ih, add_mul]

theorem sum_map_add_nat (l : List ℕ) (f g : ℕ → ℕ) :
    (l.map fun a => f a + g a).sum = (l.map f).sum + (l.map g).sum := by
  induction l with
  | nil => rfl
  | cons a l ih => simp [ih]; omega

theorem sum_map_one_nat (l : List ℕ) : (l.map fun _ => (1 : ℕ)).sum = l.length := by
  induction l with
  | nil => rfl
  | cons a l ih => simp [ih]; omega

theorem map_getD_range {α : Type} (l : List α) (d : α) :
    (List.range l.length).map (fun i => l.getD i d) = l := by
  induction l with
  | nil => rfl
  | cons a l ih =>
    rw [List.length_cons, List.range_succ_eq_map, List.map_cons, List.map_map]
    simp only [Function.comp_def, List.getD_cons_zero, List.getD_cons_succ]
    rw [ih]

theorem getD_replicate_zero (n s : ℕ) : (List.replicate n (0 : ℕ)).getD s 0 = 0 := by
  induction n generalizing s with
  | zero => simp
  | succ n ih =>
    cases s with
    | zero => simp [List.replicate]
    | succ s =>
      rw [List.replicate, List.getD_cons_succ]
      exact ih s

/-- Floors of a list of nonnegative rationals sum to at most the sum of the list. -/
theorem sum_natFloor_le (l : List ℚ) (h : ∀ q ∈ l, 0 ≤ q) :
    (((l.map fun q => ⌊q⌋₊).sum : ℕ) : ℚ) ≤ l.sum := by
  induction l with
  | nil => simp
  | cons a l ih =>
    rw [List.map_cons, List.sum_cons, List.sum_cons, Nat.cast_add]
    have h1 : (⌊a⌋₊ : ℚ) ≤ a := Nat.floor_le (h a (List.mem_cons_self a l))
    have h2 := ih (fun q hq => h q (List.mem_cons_of_mem a hq))
    linarith

/-- The sum of a list of rationals is at most the sum of the floors plus the length. -/
theorem sum_le_natFloor_add (l : List ℚ) :
    l.sum ≤ (((l.map fun q => ⌊q⌋₊).sum : ℕ) : ℚ) + l.length := by
  induction l with
  | nil => simp
  | cons a l ih =>
    rw [List.map_cons, List.sum_cons, List.sum_cons, List.length_cons, Nat.cast_add,
      Nat.cast_add, Nat.cast_one]
    have h1 : a < (⌊a⌋₊ : ℚ) + 1 := Nat.lt_floor_add_one a
    linarith

/-- Helper to compute a concrete natural floor of a rational. -/
theorem nfloor_eq (q : ℚ) (n : ℕ) (h1 : (n : ℚ) ≤ q) (h2 : q < n + 1) : ⌊q⌋₊ = n :=
  (Nat.floor_eq_iff ((Nat.cast_nonneg n).trans h1)).mpr ⟨h1, h2⟩

/-! ### Stable rank sort used by the remainder-distribution rule -/

/-- Insertion step of a structural insertion sort on source indices. -/
def rankInsert (r : ℕ → ℕ → Prop) [DecidableRel r] (a : ℕ) : List ℕ → List ℕ
  | [] => [a]
  | b :: l => if r a b then a :: b :: l else b :: rankInsert r a l

/-- Structural insertion sort on source indices; with a total order this puts
the indices in order of the relation. -/
def rankSort (r : ℕ → ℕ → Prop) [DecidableRel r] : List ℕ → List ℕ
  | [] => []
  | a :: l => rankInsert r a (rankSort r l)

theorem rankInsert_perm (r : ℕ → ℕ → Prop) [DecidableRel r] (a : ℕ) (l : List ℕ) :
    List.Perm (rankInsert r a l) (a :: l) := by
  induction l with
  | nil => exact List.Perm.refl _
  | cons b l ih =>
    rw [rankInsert]
    split
    · exact List.Perm.refl _
    · exact (List.Perm.cons b ih).trans (List.Perm.swap a b l)

theorem rankSort_perm (r : ℕ → ℕ → Prop) [DecidableRel r] (l : List ℕ) :
    List.Perm (rankSort r l) l := by
  induction l with
  | nil => exact List.Perm.refl _
  | cons a l ih =>
    exact (rankInsert_perm r a (rankSort r l)).trans (List.Perm.cons a ih)

/-! ### Running-total (scanl) helpers for the history-index table -/

theorem scanl_add_head (a : ℕ) (l : List ℕ) :
    (List.scanl (· + ·) a l).getD 0 0 = a := by
  cases l <;> rfl

theorem scanl_add_chain (a : ℕ) (l : List ℕ) :
    (List.scanl (· + ·) a l).Chain' (· ≤ ·) := by
  induction l generalizing a with
  | nil => simp [List.scanl]
  | cons b l ih =>
    rw [List.scanl]
    refine List.chain'_cons'.mpr ⟨?_, ih (a + b)⟩
    intro y hy
    cases l <;> simp [List.scanl] at hy <;> omega

theorem scanl_add_last (a : ℕ) (l : List ℕ) :
    (List.scanl (· + ·) a l).getD l.length 0 = a + l.sum := by
  induction l generalizing a with
  | nil => simp [List.scanl]
  | cons b l ih =>
    rw [List.scanl, List.length_cons, List.getD_cons_succ, ih (a + b), List.sum_cons]
    omega

theorem scanl_zero_replicate (n : ℕ) :
    List.scanl (· + ·) 0 (List.replicate n 0) = List.replicate (n + 1) 0 := by
  induction n with
  | zero => rfl
  | succ n ih => simpa [List.replicate, List.scanl] using ih

/-! ### SourceSystem launch map

The class header of src/SKIRT/core/SourceSystem.hpp documents the per-source
packet allocation

  N_s = [ (1-xi) * w_s L_s / sum (w_s L_s) + xi * w_s / sum w_s ] * N

where xi is the sourceBias; the bodies of SourceSystem::prepareForlaunch and
SourceSystem::launch are not part of the repository slice, so the launch map
is modelled from the spec (sections 3, 4.1 and 8).
-/

/-- Source descriptor: bolometric luminosity and emission weight of one
primary source, the inputs of the allocation formula. -/
structure SrcIn where
  L : ℚ
  w : ℚ

/-- Modelled from the spec: the fallback of section 4.1 for the missing body
of SourceSystem::prepareForlaunch, "If w_s = 0 for all s, fall back to
w_s = 1"; otherwise the configured weights are used. -/
def effSrcs (srcs : List SrcIn) : List SrcIn :=
  if ∀ s ∈ srcs, s.w = 0 then srcs.map (fun s => { s with w := 1 }) else srcs

/-- Modelled from the spec: the raw biased launch weight of each source,
(1-xi) * w_s L_s / sum(w_s L_s) + xi * w_s / sum w_s, the formula of the
SourceSystem.hpp class header and of spec section 3; a term whose
denominator vanishes contributes zero. -/
def rawWv (srcs : List SrcIn) (xi : ℚ) : List ℚ :=
  (effSrcs srcs).map (fun s =>
    (1 - xi) * safeDiv (s.w * s.L) ((effSrcs srcs).map (fun u => u.w * u.L)).sum
      + xi * safeDiv s.w ((effSrcs srcs).map SrcIn.w).sum)

/-- Modelled from the spec: the normalized launch weights _Wv, "Sigma _Wv = 1
exactly (after renormalization)" per spec section 3; when every raw weight is
zero (possible only in the fully degenerate case xi = 0 and all w_s L_s = 0)
the weights stay zero. -/
def normWv (srcs : List SrcIn) (xi : ℚ) : List ℚ :=
  (rawWv srcs xi).map (fun q => safeDiv q (rawWv srcs xi).sum)

/-- Modelled from the spec: the floors f_s of the raw allocations x_s = _Wv[s] * N. -/
def rawAlloc (W : List ℚ) (N : ℕ) : List ℕ := W.map (fun q => ⌊q * (N : ℚ)⌋₊)

/-- Modelled from the spec: the remainder R = N - sum f_s still to distribute. -/
def remainderCount (W : List ℚ) (N : ℕ) : ℕ := N - (rawAlloc W N).sum

/-- Modelled from the spec: the fractional part x_s - f_s of source s's raw allocation. -/
def fracOf (W : List ℚ) (N : ℕ) (s : ℕ) : ℚ :=
  W.getD s 0 * (N : ℚ) - ((rawAlloc W N).getD s 0 : ℚ)

/-- Modelled from the spec: the priority order for the remainder, "the R
sources with the largest fractional parts x_s - f_s (ties broken by
ascending source index)". -/
def tieOrder (W : List ℚ) (N : ℕ) (a b : ℕ) : Prop :=
  fracOf W N b < fracOf W N a ∨ (fracOf W N a = fracOf W N b ∧ a ≤ b)

instance (W : List ℚ) (N : ℕ) : DecidableRel (tieOrder W N) := fun a b => by
  unfold tieOrder
  exact inferInstance

/-- Modelled from the spec: the R source indices that receive one extra packet. -/
def chosenIdx (W : List ℚ) (N : ℕ) : List ℕ :=
  (rankSort (tieOrder W N) (List.range W.length)).take (remainderCount W N)

/-- Modelled from the spec: the deterministic rounding rule of section 4.1,
"compute floors f_s, distribute the remainder R = N - sum f_s to the R
sources with the largest fractional parts"; in the fully degenerate case of
an all-zero weight list every count is zero (section 4.1, edge case _L = 0). -/
def allocate (W : List ℚ) (N : ℕ) : List ℕ :=
  if W.sum = 0 then List.replicate W.length 0
  else (List.range W.length).map
    (fun s => (rawAlloc W N).getD s 0 + if s ∈ chosenIdx W N then 1 else 0)

/-- Modelled from the spec: the per-source packet counts n_s computed by
SourceSystem::prepareForlaunch. -/
def packetCounts (srcs : List SrcIn) (xi : ℚ) (N : ℕ) : List ℕ :=
  allocate (normWv srcs xi) N

/-- Modelled from the spec: the history-index table _Iv, the running totals of
the per-source counts, with _Iv[0] = 0 and a sentinel entry at the end. -/
def historyIv (srcs : List SrcIn) (xi : ℚ) (N : ℕ) : List ℕ :=
  List.scanl (· + ·) 0 (packetCounts srcs xi N)

/-! #### Length bookkeeping -/

theorem effSrcs_length (srcs : List SrcIn) : (effSrcs srcs).length = srcs.length := by
  unfold effSrcs
  split <;> simp

theorem rawWv_length (srcs : List SrcIn) (xi : ℚ) :
    (rawWv srcs xi).length = srcs.length := by
  unfold rawWv
  rw [List.length_map, effSrcs_length]

theorem normWv_length (srcs : List SrcIn) (xi : ℚ) :
    (normWv srcs xi).length = srcs.length := by
  unfold normWv
  rw [List.length_map, rawWv_length]

theorem allocate_length (W : List ℚ) (N : ℕ) : (allocate W N).length = W.length := by
  unfold allocate
  split <;> simp

theorem packetCounts_length (srcs : List SrcIn) (xi : ℚ) (N : ℕ) :
    (packetCounts srcs xi N).length = srcs.length := by
  unfold packetCounts
  rw [allocate_length, normWv_length]

/-! #### Sign and normalization facts about the launch weights -/

theorem effSrcs_nonneg (srcs : List SrcIn) (hL : ∀ s ∈ srcs, 0 ≤ s.L)
    (hw : ∀ s ∈ srcs, 0 ≤ s.w) : ∀ s ∈ effSrcs srcs, 0 ≤ s.L ∧ 0 ≤ s.w := by
  intro s hs
  unfold effSrcs at hs
  split at hs
  · obtain ⟨u, hu, rfl⟩ := List.mem_map.mp hs
    exact ⟨hL u hu, by norm_num⟩
  · exact ⟨hL s hs, hw s hs⟩

theorem effSrcs_lum_zero (srcs : List SrcIn) (hall : ∀ s ∈ srcs, s.L = 0) :
    ∀ s ∈ effSrcs srcs, s.L = 0 := by
  intro s hs
  unfold effSrcs at hs
  split at hs
  · obtain ⟨u, hu, rfl⟩ := List.mem_map.mp hs
    exact hall u hu
  · exact hall s hs

theorem rawWv_nonneg (srcs : List SrcIn) (xi : ℚ) (hL : ∀ s ∈ srcs, 0 ≤ s.L)
    (hw : ∀ s ∈ srcs, 0 ≤ s.w) (hxi0 : 0 ≤ xi) (hxi1 : xi ≤ 1) :
    ∀ q ∈ rawWv srcs xi, 0 ≤ q := by
  intro q hq
  unfold rawWv at hq
  obtain ⟨s, hs, rfl⟩ := List.mem_map.mp hq
  obtain ⟨hsL, hsw⟩ := effSrcs_nonneg srcs hL hw s hs
  have hSwL : 0 ≤ ((effSrcs srcs).map (fun u => u.w * u.L)).sum := by
    apply List.sum_nonneg
    intro q hq2
    obtain ⟨u, hu, rfl⟩ := List.mem_map.mp hq2
    obtain ⟨h1, h2⟩ := effSrcs_nonneg srcs hL hw u hu
    exact mul_nonneg h2 h1
  have hSw : 0 ≤ ((effSrcs srcs).map SrcIn.w).sum := by
    apply List.sum_nonneg
    intro q hq2
    obtain ⟨u, hu, rfl⟩ := List.mem_map.mp hq2
    exact (effSrcs_nonneg srcs hL hw u hu).2
  exact add_nonneg
    (mul_nonneg (by linarith) (safeDiv_nonneg (mul_nonneg hsw hsL) hSwL))
    (mul_nonneg hxi0 (safeDiv_nonneg hsw hSw))

theorem normWv_nonneg (srcs : List SrcIn) (xi : ℚ) (hL : ∀ s ∈ srcs, 0 ≤ s.L)
    (hw : ∀ s ∈ srcs, 0 ≤ s.w) (hxi0 : 0 ≤ xi) (hxi1 : xi ≤ 1) :
    ∀ q ∈ normWv srcs xi, 0 ≤ q := by
  intro q hq
  unfold normWv at hq
  obtain ⟨r, hr, rfl⟩ := List.mem_map.mp hq
  exact safeDiv_nonneg (rawWv_nonneg srcs xi hL hw hxi0 hxi1 r hr)
    (List.sum_nonneg (rawWv_nonneg srcs xi hL hw hxi0 hxi1))

theorem normWv_sum_one (srcs : List SrcIn) (xi : ℚ) (h : (rawWv srcs xi).sum ≠ 0) :
    (normWv srcs xi).sum = 1 := by
  unfold normWv
  have heq : ((rawWv srcs xi).map fun q => safeDiv q (rawWv srcs xi).sum)
      = ((rawWv srcs xi).map fun q => q / (rawWv srcs xi).sum) :=
    List.map_congr_left (fun q _ => safeDiv_of_ne h)
  rw [heq, sum_map_div, div_self h]

/-! #### The rounding rule distributes exactly N packets -/

theorem allocate_sum (W : List ℚ) (N : ℕ) (hpos : ∀ q ∈ W, 0 ≤ q) (hsum : W.sum = 1) :
    (allocate W N).sum = N := by
  have hne : W.sum ≠ 0 := by rw [hsum]; norm_num
  have hcomp : rawAlloc W N = (W.map fun q => q * (N : ℚ)).map (fun q => ⌊q⌋₊) := by
    unfold rawAlloc
    rw [List.map_map]
    rfl
  have hxpos : ∀ q ∈ W.map (fun q => q * (N : ℚ)), 0 ≤ q := by
    intro q hq
    obtain ⟨u, hu, rfl⟩ := List.mem_map.mp hq
    exact mul_nonneg (hpos u hu) (Nat.cast_nonneg N)
  have hxsum : (W.map fun q => q * (N : ℚ)).sum = (N : ℚ) := by
    rw [sum_map_mul_const, hsum, one_mul]
  have hfle : (rawAlloc W N).sum ≤ N := by
    have h2 := sum_natFloor_le (W.map fun q => q * (N : ℚ)) hxpos
    rw [← hcomp, hxsum] at h2
    exact_mod_cast h2
  have hNle : N ≤ (rawAlloc W N).sum + W.length := by
    have h2 := sum_le_natFloor_add (W.map fun q => q * (N : ℚ))
    rw [← hcomp, hxsum, List.length_map] at h2
    exact_mod_cast h2
  have hRle : remainderCount W N ≤ W.length := by
    unfold remainderCount
    omega
  set P := rankSort (tieOrder W N) (List.range W.length) with hP
  have hperm : List.Perm P (List.range W.length) := rankSort_perm _ _
  have hPlen : P.length = W.length := by rw [hperm.length_eq, List.length_range]
  have hPnodup : P.Nodup := (hperm.nodup_iff).mpr (List.nodup_range _)
  have hchosen : chosenIdx W N = P.take (remainderCount W N) := by
    rw [chosenIdx, hP]
  have htakelen : (P.take (remainderCount W N)).length = remainderCount W N := by
    rw [List.length_take, hPlen]
    omega
  have hsum_perm : (allocate W N).sum
      = (P.map (fun s => (rawAlloc W N).getD s 0 + if s ∈ chosenIdx W N then 1 else 0)).sum := by
    unfold allocate
    rw [if_neg hne]
    exact (List.Perm.sum_eq (List.Perm.map _ hperm)).symm
  have hsplit : P = P.take (remainderCount W N) ++ P.drop (remainderCount W N) :=
    (List.take_append_drop _ _).symm
  have hdisj : List.Disjoint (P.take (remainderCount W N)) (P.drop (remainderCount W N)) :=
    List.disjoint_take_drop hPnodup (le_refl _)
  have htake : ((P.take (remainderCount W N)).map
        (fun s => (rawAlloc W N).getD s 0 + if s ∈ chosenIdx W N then 1 else 0)).sum
      = ((P.take (remainderCount W N)).map (fun s => (rawAlloc W N).getD s 0)).sum
        + remainderCount W N := by
    have heq : (P.take (remainderCount W N)).map
          (fun s => (rawAlloc W N).getD s 0 + if s ∈ chosenIdx W N then 1 else 0)
        = (P.take (remainderCount W N)).map (fun s => (rawAlloc W N).getD s 0 + 1) := by
      apply List.map_congr_left
      intro s hs
      rw [if_pos]
      rw [hchosen]
      exact hs
    rw [heq, sum_map_add_nat, sum_map_one_nat, htakelen]
  have hdrop : ((P.drop (remainderCount W N)).map
        (fun s => (rawAlloc W N).getD s 0 + if s ∈ chosenIdx W N then 1 else 0)).sum
      = ((P.drop (remainderCount W N)).map (fun s => (rawAlloc W N).getD s 0)).sum := by
    have heq : (P.drop (remainderCount W N)).map
          (fun s => (rawAlloc W N).getD s 0 + if s ∈ chosenIdx W N then 1 else 0)
        = (P.drop (remainderCount W N)).map (fun s => (rawAlloc W N).getD s 0) := by
      apply List.map_congr_left
      intro s hs
      rw [if_neg, add_zero]
      intro hmem
      rw [hchosen] at hmem
      exact hdisj hmem hs
    rw [heq]
  have hfsum : (P.map (fun s => (rawAlloc W N).getD s 0)).sum = (rawAlloc W N).sum := by
    have h1 : (P.map (fun s => (rawAlloc W N).getD s 0)).sum
        = ((List.range W.length).map (fun s => (rawAlloc W N).getD s 0)).sum :=
      List.Perm.sum_eq (List.Perm.map _ hperm)
    have hflen : (rawAlloc W N).length = W.length := by
      unfold rawAlloc
      rw [List.length_map]
    rw [h1, ← hflen, map_getD_range]
  have hparts : ((P.take (remainderCount W N)).map (fun s => (rawAlloc W N).getD s 0)).sum
      + ((P.drop (remainderCount W N)).map (fun s => (rawAlloc W N).getD s 0)).sum
      = (rawAlloc W N).sum := by
    rw [← List.sum_append, ← List.map_append, ← hsplit]
    exact hfsum
  rw [hsum_perm]
  conv_lhs => rw [hsplit]
  rw [List.map_append, List.sum_append, htake, hdrop]
  unfold remainderCount at *
  omega

theorem normWv_sum_zero (srcs : List SrcIn) (xi : ℚ) (h : (rawWv srcs xi).sum = 0) :
    (normWv srcs xi).sum = 0 := by
  apply List.sum_eq_zero
  intro q hq
  unfold normWv at hq
  obtain ⟨r, hr, rfl⟩ := List.mem_map.mp hq
  rw [h]
  unfold safeDiv
  simp

theorem allocate_degenerate (W : List ℚ) (N : ℕ) (h : W.sum = 0) :
    allocate W N = List.replicate W.length 0 := by
  unfold allocate
  rw [if_pos h]

/-! ### The launch-side state frozen by prepareForlaunch -/

/-- State of a SourceSystem frozen by prepareForlaunch: the normalized
luminosities _Lv, the normalized launch weights _Wv, the history-index table
_Iv and the mean luminosity per packet _Lpp (data members of SourceSystem). -/
structure LaunchState where
  Lv : List ℚ
  Wv : List ℚ
  Iv : List ℕ
  Lpp : ℚ

/-- Modelled from the spec: SourceSystem::prepareForlaunch (body missing from
the slice) recomputes _Lv, _Wv, _Iv and _Lpp from the sources' current
luminosities and weights (spec section 4.1). -/
def prepareForlaunch (srcs : List SrcIn) (xi : ℚ) (N : ℕ) : LaunchState :=
  { Lv := srcs.map (fun s => safeDiv s.L (srcs.map SrcIn.L).sum)
    Wv := normWv srcs xi
    Iv := historyIv srcs xi N
    Lpp := safeDiv (srcs.map SrcIn.L).sum (N : ℚ) }

/-- Modelled from the spec: the source owning history index h, "Finds s such
that _Iv[s] <= h < _Iv[s+1] via binary search" (spec section 4.1); on the
non-decreasing table this is the number of interior table entries at most h. -/
def findSource (iv : List ℕ) (h : ℕ) : ℕ :=
  (iv.tail.takeWhile (fun i => decide (i ≤ h))).length

/-- Photon packet fields determined by the source system at launch; the
source-local sampling (position, direction, wavelength) is deterministic in
the history index by the spec's RNG assumption and is summarized by the
local index. -/
structure PhotonPacket where
  historyIndex : ℕ
  sourceIndex : ℕ
  localIndex : ℕ
  weight : ℚ

/-- Modelled from the spec: SourceSystem::launch (body missing from the
slice) fully (re)initializes the packet from the frozen state and the
history index; the weight multiplier is _Lv[s]/_Wv[s] when both are
positive, else the packet weight is zero (spec section 4.1). -/
def launch (st : LaunchState) (h : ℕ) : PhotonPacket :=
  { historyIndex := h
    sourceIndex := findSource st.Iv h
    localIndex := h - st.Iv.getD (findSource st.Iv h) 0
    weight :=
      if 0 < st.Wv.getD (findSource st.Iv h) 0 ∧ 0 < st.Lv.getD (findSource st.Iv h) 0
      then st.Lv.getD (findSource st.Iv h) 0 / st.Wv.getD (findSource st.Iv h) 0
      else 0 }

/-- Modelled from the spec: a parallel emission segment; a schedule is the
list of chunks of history indices claimed by the worker threads, and each
launch reads only the frozen state and its history index (spec section 5). -/
def runSchedule (st : LaunchState) (sched : List (List ℕ)) : List (ℕ × PhotonPacket) :=
  sched.flatten.map (fun h => (h, launch st h))

/-! ### Claim C1 -/

/-- C1 (corrected): for nonnegative luminosities and weights and sourceBias
xi in [0,1], and provided the raw biased weights do not all vanish (or
N = 0), after prepareForlaunch(N) the per-source packet counts sum to N, the
history-index table _Iv is monotonically non-decreasing, _Iv[0] = 0, and the
sentinel _Iv[|S|] = N. In the fully degenerate case (xi = 0 and all
w_s L_s = 0) with N > 0 every entry of _Iv is 0 and the sentinel is 0, not
N, as the counterexample theorem shows. -/
theorem c1_launch_map_invariants (srcs : List SrcIn) (xi : ℚ) (N : ℕ)
    (hL : ∀ s ∈ srcs, 0 ≤ s.L) (hw : ∀ s ∈ srcs, 0 ≤ s.w)
    (hxi0 : 0 ≤ xi) (hxi1 : xi ≤ 1)
    (hnd : (rawWv srcs xi).sum ≠ 0 ∨ N = 0) :
    (packetCounts srcs xi N).sum = N ∧
    (historyIv srcs xi N).Chain' (· ≤ ·) ∧
    (historyIv srcs xi N).getD 0 0 = 0 ∧
    (historyIv srcs xi N).getD srcs.length 0 = N := by
  have hsum : (packetCounts srcs xi N).sum = N := by
    by_cases hz : (rawWv srcs xi).sum = 0
    · have hN : N = 0 := hnd.resolve_left (fun hc => hc hz)
      subst hN
      rw [packetCounts, allocate_degenerate _ _ (normWv_sum_zero srcs xi hz)]
      simp
    · rw [packetCounts]
      exact allocate_sum _ _ (normWv_nonneg srcs xi hL hw hxi0 hxi1)
        (normWv_sum_one srcs xi hz)
  refine ⟨hsum, ?_, ?_, ?_⟩
  · unfold historyIv
    exact scanl_add_chain 0 _
  · unfold historyIv
    exact scanl_add_head 0 _
  · have hlen := packetCounts_length srcs xi N
    unfold historyIv
    rw [← hlen, scanl_add_last 0 _, hsum]
    omega

/-! #### Concrete scenario S1: L = [1,2,1], w = [1,1,1], xi = 1/2, N = 1000 -/

theorem s1_raw : rawWv [⟨1, 1⟩, ⟨2, 1⟩, ⟨1, 1⟩] (1/2) = [7/24, 5/12, 7/24] := by
  norm_num [rawWv, effSrcs, safeDiv]

theorem s1_norm : normWv [⟨1, 1⟩, ⟨2, 1⟩, ⟨1, 1⟩] (1/2) = [7/24, 5/12, 7/24] := by
  norm_num [normWv, s1_raw, safeDiv]

theorem s1_counts : packetCounts [⟨1, 1⟩, ⟨2, 1⟩, ⟨1, 1⟩] (1/2) 1000 = [292, 417, 291] := by
  have hf1 : ⌊(875 / 3 : ℚ)⌋₊ = 291 := nfloor_eq _ _ (by norm_num) (by norm_num)
  have hf2 : ⌊(1250 / 3 : ℚ)⌋₊ = 416 := nfloor_eq _ _ (by norm_num) (by norm_num)
  have hr : List.range 3 = [0, 1, 2] := rfl
  norm_num [packetCounts, s1_norm, allocate, rawAlloc, remainderCount, chosenIdx,
    fracOf, tieOrder, rankSort, rankInsert, hf1, hf2, hr]

theorem s1_iv : historyIv [⟨1, 1⟩, ⟨2, 1⟩, ⟨1, 1⟩] (1/2) 1000 = [0, 292, 709, 1000] := by
  norm_num [historyIv, s1_counts, List.scanl]

/-! #### Concrete scenario S2: L = [0,0], w = [1,1], xi = 1, N = 10 -/

theorem s2_raw : rawWv [⟨0, 1⟩, ⟨0, 1⟩] 1 = [1/2, 1/2] := by
  norm_num [rawWv, effSrcs, safeDiv]

theorem s2_norm : normWv [⟨0, 1⟩, ⟨0, 1⟩] 1 = [1/2, 1/2] := by
  norm_num [normWv, s2_raw, safeDiv]

theorem s2_counts : packetCounts [⟨0, 1⟩, ⟨0, 1⟩] 1 10 = [5, 5] := by
  have hf : ⌊(5 : ℚ)⌋₊ = 5 := nfloor_eq _ _ (by norm_num) (by norm_num)
  have hr : List.range 2 = [0, 1] := rfl
  norm_num [packetCounts, s2_norm, allocate, rawAlloc, remainderCount, chosenIdx,
    fracOf, tieOrder, rankSort, rankInsert, hf, hr]

theorem s2_iv : historyIv [⟨0, 1⟩, ⟨0, 1⟩] 1 10 = [0, 5, 10] := by
  norm_num [historyIv, s2_counts, List.scanl]

theorem s2_weight (h : ℕ) :
    (launch (prepareForlaunch [⟨0, 1⟩, ⟨0, 1⟩] 1 10) h).weight = 0 := by
  have hLv : (prepareForlaunch [⟨0, 1⟩, ⟨0, 1⟩] 1 10).Lv = [0, 0] := by
    norm_num [prepareForlaunch, safeDiv]
  have hget : ∀ s : ℕ, ([0, 0] : List ℚ).getD s 0 = 0 := by
    intro s
    match s with
    | 0 => rfl
    | 1 => rfl
    | n + 2 => rfl
  have hW : (launch (prepareForlaunch [⟨0, 1⟩, ⟨0, 1⟩] 1 10) h).weight
      = (if 0 < (prepareForlaunch [⟨0, 1⟩, ⟨0, 1⟩] 1 10).Wv.getD
              (findSource (prepareForlaunch [⟨0, 1⟩, ⟨0, 1⟩] 1 10).Iv h) 0
            ∧ 0 < (prepareForlaunch [⟨0, 1⟩, ⟨0, 1⟩] 1 10).Lv.getD
              (findSource (prepareForlaunch [⟨0, 1⟩, ⟨0, 1⟩] 1 10).Iv h) 0
        then (prepareForlaunch [⟨0, 1⟩, ⟨0, 1⟩] 1 10).Lv.getD
              (findSource (prepareForlaunch [⟨0, 1⟩, ⟨0, 1⟩] 1 10).Iv h) 0
            / (prepareForlaunch [⟨0, 1⟩, ⟨0, 1⟩] 1 10).Wv.getD
              (findSource (prepareForlaunch [⟨0, 1⟩, ⟨0, 1⟩] 1 10).Iv h) 0
        else 0) := rfl
  rw [hW, if_neg]
  intro hcond
  have h2 := hcond.2
  rw [hLv, hget] at h2
  exact lt_irrefl 0 h2

/-! #### Remaining claim theorems about the launch map -/

/-- C1 counterexample: in the fully degenerate configuration of one source
with L = 0, w = 1, sourceBias xi = 0 and N = 1 (valid per the spec, which
calls all-zero luminosity a non-fatal degenerate case), the sentinel entry
_Iv[|S|] is 0 and not N = 1, so the claimed invariant fails as stated. -/
theorem c1_degenerate_counterexample :
    (historyIv [⟨0, 1⟩] 0 1).getD 1 0 = 0 ∧ (historyIv [⟨0, 1⟩] 0 1).getD 1 0 ≠ 1 := by
  have hraw : rawWv [⟨0, 1⟩] 0 = [0] := by norm_num [rawWv, effSrcs, safeDiv]
  have hnorm : normWv [⟨0, 1⟩] 0 = [0] := by norm_num [normWv, hraw, safeDiv]
  have hc : packetCounts [⟨0, 1⟩] 0 1 = [0] := by
    rw [packetCounts, hnorm, allocate_degenerate]
    · rfl
    · norm_num
  have hiv : (historyIv [⟨0, 1⟩] 0 1).getD 1 0 = 0 := by
    rw [historyIv, hc]
    rfl
  exact ⟨hiv, by rw [hiv]; decide⟩

/-- C1 witness: the invariants hold at the concrete scenario S1
(three sources, L = [1,2,1], w = [1,1,1], xi = 1/2, N = 1000). -/
theorem c1_witness :
    ((∀ s ∈ ([⟨1, 1⟩, ⟨2, 1⟩, ⟨1, 1⟩] : List SrcIn), 0 ≤ s.L) ∧
     (∀ s ∈ ([⟨1, 1⟩, ⟨2, 1⟩, ⟨1, 1⟩] : List SrcIn), 0 ≤ s.w) ∧
     (0 : ℚ) ≤ 1/2 ∧ (1/2 : ℚ) ≤ 1 ∧
     ((rawWv [⟨1, 1⟩, ⟨2, 1⟩, ⟨1, 1⟩] (1/2)).sum ≠ 0 ∨ (1000 : ℕ) = 0)) ∧
    ((packetCounts [⟨1, 1⟩, ⟨2, 1⟩, ⟨1, 1⟩] (1/2) 1000).sum = 1000 ∧
     (historyIv [⟨1, 1⟩, ⟨2, 1⟩, ⟨1, 1⟩] (1/2) 1000).Chain' (· ≤ ·) ∧
     (historyIv [⟨1, 1⟩, ⟨2, 1⟩, ⟨1, 1⟩] (1/2) 1000).getD 0 0 = 0 ∧
     (historyIv [⟨1, 1⟩, ⟨2, 1⟩, ⟨1, 1⟩] (1/2) 1000).getD 3 0 = 1000) := by
  have hL : ∀ s ∈ ([⟨1, 1⟩, ⟨2, 1⟩, ⟨1, 1⟩] : List SrcIn), 0 ≤ s.L := by
    intro s hs
    fin_cases hs <;> norm_num
  have hw : ∀ s ∈ ([⟨1, 1⟩, ⟨2, 1⟩, ⟨1, 1⟩] : List SrcIn), 0 ≤ s.w := by
    intro s hs
    fin_cases hs <;> norm_num
  have hnd : (rawWv [⟨1, 1⟩, ⟨2, 1⟩, ⟨1, 1⟩] (1/2)).sum ≠ 0 ∨ (1000 : ℕ) = 0 :=
    Or.inl (by rw [s1_raw]; norm_num)
  exact ⟨⟨hL, hw, by norm_num, by norm_num, hnd⟩,
    c1_launch_map_invariants _ _ _ hL hw (by norm_num) (by norm_num) hnd⟩

/-- C2 counterexample: at scenario S1 the floor-then-largest-fraction rule
with ties broken by ascending source index yields neither the claimed
n = [292, 416, 292] nor the claimed _Iv = [0, 292, 708, 1000]: all three
fractional parts are 2/3, so the remainder of 2 goes to sources 0 and 1. -/
theorem c2_s1_counterexample :
    packetCounts [⟨1, 1⟩, ⟨2, 1⟩, ⟨1, 1⟩] (1/2) 1000 ≠ [292, 416, 292] ∧
    historyIv [⟨1, 1⟩, ⟨2, 1⟩, ⟨1, 1⟩] (1/2) 1000 ≠ [0, 292, 708, 1000] :=
  ⟨by rw [s1_counts]; decide, by rw [s1_iv]; decide⟩

/-- C2 (corrected): at scenario S1 the launch weights are
_Wv = [7/24, 5/12, 7/24] (the exact values of 0.5*[1/4,1/2,1/4] +
0.5*[1/3,1/3,1/3]); the raw allocations are [291+2/3, 416+2/3, 291+2/3], so
the remainder R = 2 goes to sources 0 and 1 (ties broken by ascending
index), giving n = [292, 417, 291] and _Iv = [0, 292, 709, 1000]. -/
theorem c2_s1_allocation :
    normWv [⟨1, 1⟩, ⟨2, 1⟩, ⟨1, 1⟩] (1/2) = [7/24, 5/12, 7/24] ∧
    packetCounts [⟨1, 1⟩, ⟨2, 1⟩, ⟨1, 1⟩] (1/2) 1000 = [292, 417, 291] ∧
    historyIv [⟨1, 1⟩, ⟨2, 1⟩, ⟨1, 1⟩] (1/2) 1000 = [0, 292, 709, 1000] :=
  ⟨s1_norm, s1_counts, s1_iv⟩

/-- C3: launching is deterministic per history index; whichever chunked
schedules two runs over the same frozen state use, the packet recorded for
history index h is the same, because launch reads only the frozen state and
h (the model bakes in the spec's assumption that the per-packet RNG is
seeded from h). -/
theorem c3_deterministic (srcs : List SrcIn) (xi : ℚ) (N : ℕ)
    (sched1 sched2 : List (List ℕ)) (h : ℕ) (p1 p2 : PhotonPacket)
    (h1 : (h, p1) ∈ runSchedule (prepareForlaunch srcs xi N) sched1)
    (h2 : (h, p2) ∈ runSchedule (prepareForlaunch srcs xi N) sched2) :
    p1 = p2 := by
  unfold runSchedule at h1 h2
  obtain ⟨a, _, ha⟩ := List.mem_map.mp h1
  obtain ⟨b, _, hb⟩ := List.mem_map.mp h2
  simp only [Prod.mk.injEq] at ha hb
  obtain ⟨rfl, rfl⟩ := ha
  obtain ⟨rfl, rfl⟩ := hb
  rfl

/-- C3 witness: two different thread schedules over the same frozen state
contain history index 1, and the packets they record for it agree. -/
theorem c3_witness :
    (1, launch (prepareForlaunch [⟨1, 1⟩] 0 2) 1) ∈
      runSchedule (prepareForlaunch [⟨1, 1⟩] 0 2) [[0], [1]] ∧
    (1, launch (prepareForlaunch [⟨1, 1⟩] 0 2) 1) ∈
      runSchedule (prepareForlaunch [⟨1, 1⟩] 0 2) [[1, 0]] ∧
    launch (prepareForlaunch [⟨1, 1⟩] 0 2) 1 = launch (prepareForlaunch [⟨1, 1⟩] 0 2) 1 := by
  have h1 : (1, launch (prepareForlaunch [⟨1, 1⟩] 0 2) 1) ∈
      runSchedule (prepareForlaunch [⟨1, 1⟩] 0 2) [[0], [1]] := by
    simp [runSchedule]
  have h2 : (1, launch (prepareForlaunch [⟨1, 1⟩] 0 2) 1) ∈
      runSchedule (prepareForlaunch [⟨1, 1⟩] 0 2) [[1, 0]] := by
    simp [runSchedule]
  exact ⟨h1, h2, c3_deterministic [⟨1, 1⟩] 0 2 [[0], [1]] [[1, 0]] 1 _ _ h1 h2⟩

/-- C4 counterexample: for two sources with L = [0, 0], w = [1, 1] and
sourceBias xi = 1 (scenario S2 of the spec), the total luminosity is zero
yet prepareForlaunch(10) allocates by the uniform weights, so _Iv[1] = 5,
not 0: the claim that _L = 0 forces _Iv[s] = 0 for every s fails. -/
theorem c4_zero_lum_counterexample :
    (([⟨0, 1⟩, ⟨0, 1⟩] : List SrcIn).map SrcIn.L).sum = 0 ∧
    (historyIv [⟨0, 1⟩, ⟨0, 1⟩] 1 10).getD 1 0 = 5 := by
  refine ⟨by norm_num, ?_⟩
  rw [s2_iv]
  rfl

/-- C4 (corrected): when every source luminosity is zero AND the sourceBias
xi is zero (so that the biased launch weights all vanish), prepareForlaunch
produces count 0 for every source, _Iv[s] = 0 for every s including the
sentinel, and the total allocated count is 0; with xi > 0 the uniform term
still allocates packets (see the counterexample), which then carry weight 0. -/
theorem c4_zero_lum_zero_bias (srcs : List SrcIn) (N : ℕ)
    (hall : ∀ s ∈ srcs, s.L = 0) :
    packetCounts srcs 0 N = List.replicate srcs.length 0 ∧
    historyIv srcs 0 N = List.replicate (srcs.length + 1) 0 ∧
    (packetCounts srcs 0 N).sum = 0 := by
  have hraw : (rawWv srcs 0).sum = 0 := by
    apply List.sum_eq_zero
    intro q hq
    unfold rawWv at hq
    obtain ⟨s, hs, rfl⟩ := List.mem_map.mp hq
    rw [effSrcs_lum_zero srcs hall s hs]
    simp [safeDiv_zero_num]
  have hc : packetCounts srcs 0 N = List.replicate srcs.length 0 := by
    rw [packetCounts, allocate_degenerate _ _ (normWv_sum_zero srcs 0 hraw), normWv_length]
  refine ⟨hc, ?_, ?_⟩
  · rw [historyIv, hc, scanl_zero_replicate]
  · rw [hc]
    simp

/-- C4 witness: two zero-luminosity sources with xi = 0 and N = 7 all get
count 0 and an all-zero history-index table. -/
theorem c4_witness :
    (∀ s ∈ ([⟨0, 1⟩, ⟨0, 1⟩] : List SrcIn), s.L = 0) ∧
    packetCounts [⟨0, 1⟩, ⟨0, 1⟩] 0 7 = [0, 0] ∧
    historyIv [⟨0, 1⟩, ⟨0, 1⟩] 0 7 = [0, 0, 0] := by
  have hall : ∀ s ∈ ([⟨0, 1⟩, ⟨0, 1⟩] : List SrcIn), s.L = 0 := by
    intro s hs
    fin_cases hs <;> rfl
  obtain ⟨h1, h2, _⟩ := c4_zero_lum_zero_bias [⟨0, 1⟩, ⟨0, 1⟩] 7 hall
  exact ⟨hall, by rw [h1]; rfl, by rw [h2]; rfl⟩

/-- C5: for two sources with L = [0, 0], w = [1, 1], sourceBias xi = 1 and
N = 10, prepareForlaunch allocates n = [5, 5] (so _Iv = [0, 5, 10]) and
every launched packet carries weight 0, since _Lv[s] = 0 disables the
weight multiplier. -/
theorem c5_zero_luminosity_uniform :
    packetCounts [⟨0, 1⟩, ⟨0, 1⟩] 1 10 = [5, 5] ∧
    historyIv [⟨0, 1⟩, ⟨0, 1⟩] 1 10 = [0, 5, 10] ∧
    ∀ h : ℕ, h < 10 → (launch (prepareForlaunch [⟨0, 1⟩, ⟨0, 1⟩] 1 10) h).weight = 0 :=
  ⟨s2_counts, s2_iv, fun h _ => s2_weight h⟩

/-- C5 witness: history index 3 lies in [0, 10) and its packet has weight 0. -/
theorem c5_witness :
    (3 : ℕ) < 10 ∧ (launch (prepareForlaunch [⟨0, 1⟩, ⟨0, 1⟩] 1 10) 3).weight = 0 :=
  ⟨by norm_num, c5_zero_luminosity_uniform.2.2 3 (by norm_num)⟩

/-! ### Imported medium (src/SKIRT/core/ImportedMedium.cpp)

The medium wraps an optional snapshot (absent until setupSelfAfter has run)
and either a fixed material mix or a mix family keyed by a per-cell
parameter vector. Positions and vectors are triples of rationals.
-/

abbrev Pos3 := ℚ × ℚ × ℚ

abbrev Vec3 := ℚ × ℚ × ℚ

/-- Material mix interface as used by ImportedMedium.cpp: the mass per
particle and the dust/gas discriminator. -/
structure MaterialMix where
  mass : ℚ
  isDust : Bool

/-- Snapshot query interface as used by ImportedMedium.cpp: position-indexed
density, velocity, magnetic field, temperature and per-cell parameters, the
total mass, and the holdsNumber discriminator. -/
structure SnapshotData where
  density : Pos3 → ℚ
  totalMass : ℚ
  holdsNumber : Bool
  velocity : Pos3 → Vec3
  magneticField : Pos3 → Vec3
  temperature : Pos3 → ℚ
  parameters : Pos3 → List ℚ

/-- Material mix family: declared parameter arity (parameterInfo) and the
map from a parameter vector to a mix. -/
structure MixFamily where
  parameterInfo : List String
  mixOf : List ℚ → MaterialMix

/-- Configuration state of an ImportedMedium: the import flags and density
policy inputs, the fixed mix, the mix family and the optional snapshot
(none before setupSelfAfter has constructed it). -/
structure ImportedMedium where
  importVariableMixParams : Bool
  importVelocity : Bool
  importMetallicity : Bool
  importTemperature : Bool
  importMagneticField : Bool
  massFraction : ℚ
  maxTemperature : ℚ
  materialMix : MaterialMix
  materialMixFamily : MixFamily
  snapshot : Option SnapshotData

/-- Embeds ImportedMedium::mix (ImportedMedium.cpp lines 58-73): with a
variable mix family the parameters are looked up in the snapshot; if the
snapshot has not yet been created the zero-filled default parameter vector
of the family's declared size is used (Array::resize value-initializes);
without a variable mix the fixed material mix is returned. -/
def ImportedMedium.mix (m : ImportedMedium) (bfr : Pos3) : MaterialMix :=
  if m.importVariableMixParams then
    match m.snapshot with
    | some snap => m.materialMixFamily.mixOf (snap.parameters bfr)
    | none =>
        m.materialMixFamily.mixOf
          (List.replicate m.materialMixFamily.parameterInfo.length 0)
  else m.materialMix

/-- State-passing reading of the const member function ImportedMedium::mix:
the second component is the medium state after the call, which is unchanged;
in particular the snapshot is not constructed lazily. -/
def ImportedMedium.mixS (m : ImportedMedium) (bfr : Pos3) : MaterialMix × ImportedMedium :=
  (m.mix bfr, m)

/-- Embeds ImportedMedium::hasVelocity (lines 84-94): velocity is imported
only when the importVelocity flag is set and the simulation is not
oligochromatic. -/
def ImportedMedium.hasVelocity (m : ImportedMedium) (oligochromatic : Bool) : Bool :=
  m.importVelocity && !oligochromatic

/-- Embeds ImportedMedium::bulkVelocity (lines 98-101): the snapshot's
velocity when hasVelocity() holds, the default-constructed zero vector
otherwise. -/
def ImportedMedium.bulkVelocity (m : ImportedMedium) (oligochromatic : Bool)
    (bfr : Pos3) : Vec3 :=
  if m.hasVelocity oligochromatic then
    match m.snapshot with
    | some snap => snap.velocity bfr
    | none => (0, 0, 0)
  else (0, 0, 0)

/-- Embeds ImportedMedium::numberDensity (lines 138-143): the snapshot
density, divided by the mix mass at the position when the snapshot holds
mass values. -/
def ImportedMedium.numberDensity (m : ImportedMedium) (bfr : Pos3) : ℚ :=
  match m.snapshot with
  | some snap =>
      if snap.holdsNumber then snap.density bfr
      else snap.density bfr / (m.mix bfr).mass
  | none => 0

/-- Embeds ImportedMedium::massDensity (lines 156-161): the snapshot
density, multiplied by the mix mass at the position when the snapshot holds
number values. -/
def ImportedMedium.massDensity (m : ImportedMedium) (bfr : Pos3) : ℚ :=
  match m.snapshot with
  | some snap =>
      if snap.holdsNumber then snap.density bfr * (m.mix bfr).mass
      else snap.density bfr
  | none => 0

theorem numberDensity_some (m : ImportedMedium) (snap : SnapshotData) (x : Pos3)
    (hs : m.snapshot = some snap) :
    m.numberDensity x
      = if snap.holdsNumber then snap.density x
        else snap.density x / (m.mix x).mass := by
  unfold ImportedMedium.numberDensity
  rw [hs]

theorem massDensity_some (m : ImportedMedium) (snap : SnapshotData) (x : Pos3)
    (hs : m.snapshot = some snap) :
    m.massDensity x
      = if snap.holdsNumber then snap.density x * (m.mix x).mass
        else snap.density x := by
  unfold ImportedMedium.massDensity
  rw [hs]

/-- Mass-density policy passed to Snapshot::setMassDensityPolicy: the mass
fraction multiplier, the temperature cutoff, and the use-metallicity flag. -/
structure MassDensityPolicy where
  massFraction : ℚ
  maxTemperature : ℚ
  useMetallicity : Bool

/-- Embeds the density-policy branch of ImportedMedium::setupSelfAfter
(lines 27-36): for dust the cutoff is the configured maximum temperature
when importTemperature is enabled and 0 otherwise; for gas the cutoff is 0;
metallicity is used as a multiplier in both branches. -/
def setMassDensityPolicy (isDust importTemperature : Bool)
    (massFraction maxTemperature : ℚ) : MassDensityPolicy :=
  if isDust then
    { massFraction := massFraction
      maxTemperature := if importTemperature then maxTemperature else 0
      useMetallicity := true }
  else
    { massFraction := massFraction, maxTemperature := 0, useMetallicity := true }

/-- Modelled from the spec: the consumer of the policy,
Snapshot::setMassDensityPolicy, is not in the repository slice; per the
VoronoiMeshGeometry.hpp documentation, a cell hotter than a positive cutoff
gets zero mass, and otherwise the mass fraction and (when used) the
metallicity multiply the imported cell mass. -/
def effectiveCellMass (pol : MassDensityPolicy) (Z T m0 : ℚ) : ℚ :=
  if 0 < pol.maxTemperature ∧ pol.maxTemperature < T then 0
  else pol.massFraction * ((if pol.useMetallicity then Z else 1) * m0)

/-! ### Gas SED families (gasContinuumEmissionSEDFamily.cpp and
gasLineEmissionSEDFamily.cpp) -/

/-- Embeds gasContinuumEmissionSEDFamily::specificLuminosity
(gasContinuumEmissionSEDFamily.cpp lines 40-49): the tabulated emission at
(wavelength, logU, Z), scaled by the ionising luminosity and the emission
flag carried as cell parameters [logU, Z, IonisingLum, EmissionBool]; the
table interpolation itself is abstracted as a function argument. -/
def gasContinuumEmissionSEDFamily.specificLuminosity
    (table : ℚ → ℚ → ℚ → ℚ) (wavelength : ℚ) (parameters : List ℚ) : ℚ :=
  parameters.getD 2 0 * parameters.getD 3 0
    * table wavelength (parameters.getD 0 0) (parameters.getD 1 0)

/-- Embeds the specificLuminosity of gasLineEmissionSEDFamily.cpp lines
41-50 (declared on the same class name as the continuum variant, with the
same body but a separate data file). -/
def gasLineEmissionSEDFamily.specificLuminosity
    (table : ℚ → ℚ → ℚ → ℚ) (wavelength : ℚ) (parameters : List ℚ) : ℚ :=
  parameters.getD 2 0 * parameters.getD 3 0
    * table wavelength (parameters.getD 0 0) (parameters.getD 1 0)

/-! ### Example instances used by the witnesses -/

/-- Example mix family with two declared parameters. -/
def famEx : MixFamily :=
  { parameterInfo := ["logU", "metallicity"]
    mixOf := fun ps => { mass := ps.getD 0 0 + 1, isDust := true } }

/-- Example snapshot holding mass values, with constant density 6. -/
def snapEx : SnapshotData :=
  { density := fun _ => 6
    totalMass := 6
    holdsNumber := false
    velocity := fun _ => (1, 2, 3)
    magneticField := fun _ => (0, 0, 0)
    temperature := fun _ => 100
    parameters := fun _ => [] }

/-- Example medium before setup: variable mix requested, snapshot absent. -/
def mediumPre : ImportedMedium :=
  { importVariableMixParams := true
    importVelocity := false
    importMetallicity := false
    importTemperature := false
    importMagneticField := false
    massFraction := 1
    maxTemperature := 0
    materialMix := { mass := 2, isDust := true }
    materialMixFamily := famEx
    snapshot := none }

/-- Example medium after setup: fixed mix of mass 2, snapshot present. -/
def mediumEx : ImportedMedium :=
  { importVariableMixParams := false
    importVelocity := true
    importMetallicity := false
    importTemperature := false
    importMagneticField := false
    massFraction := 1
    maxTemperature := 0
    materialMix := { mass := 2, isDust := true }
    materialMixFamily := famEx
    snapshot := some snapEx }

/-! ### Claims C6 to C10 -/

/-- C6: for an imported medium with a variable mix family, mix(x) called
before the snapshot exists returns the family's mix at the zero-filled
default parameter vector whose length equals the family's declared
parameter arity, and leaves the medium's state (in particular the absent
snapshot) unchanged; after setup, mix(x) uses the parameters looked up in
the snapshot at x. -/
theorem c6_mix_before_setup (m : ImportedMedium) (x : Pos3)
    (hvar : m.importVariableMixParams = true) :
    (m.snapshot = none →
      m.mix x = m.materialMixFamily.mixOf
          (List.replicate m.materialMixFamily.parameterInfo.length 0) ∧
      (List.replicate m.materialMixFamily.parameterInfo.length (0 : ℚ)).length
          = m.materialMixFamily.parameterInfo.length ∧
      (m.mixS x).2 = m) ∧
    (∀ snap, m.snapshot = some snap →
      m.mix x = m.materialMixFamily.mixOf (snap.parameters x)) := by
  constructor
  · intro hnone
    refine ⟨?_, by simp, rfl⟩
    unfold ImportedMedium.mix
    rw [hvar, hnone]
    rfl
  · intro snap hsome
    unfold ImportedMedium.mix
    rw [hvar, hsome]
    rfl

/-- C6 witness: on a concrete pre-setup medium with a two-parameter family,
mix returns the family's mix of the zero vector of length two. -/
theorem c6_witness :
    mediumPre.importVariableMixParams = true ∧
    mediumPre.snapshot = none ∧
    mediumPre.mix (0, 0, 0) = mediumPre.materialMixFamily.mixOf
      (List.replicate mediumPre.materialMixFamily.parameterInfo.length 0) :=
  ⟨rfl, rfl, ((c6_mix_before_setup mediumPre (0, 0, 0) rfl).1 rfl).1⟩

/-- C7 counterexample: with importTemperature disabled and a configured
maximum temperature of 10000, the policy passed for a dust mix carries
temperature cutoff 0, not the configured maximum 10000: the claim that the
dust cutoff always equals the configured maximum fails. -/
theorem c7_policy_counterexample :
    (setMassDensityPolicy true false 1 10000).maxTemperature = 0 ∧
    (setMassDensityPolicy true false 1 10000).maxTemperature ≠ 10000 := by
  refine ⟨rfl, ?_⟩
  norm_num [setMassDensityPolicy]

/-- C7 (corrected): during setup the policy is configured so that for a dust
mix the temperature cutoff equals the configured maximum temperature when
importTemperature is enabled (and is 0, meaning no cutoff, otherwise), a
dust cell hotter than a positive cutoff contributes zero mass, for a gas mix
no temperature cutoff is applied, and metallicity multiplies mass/density in
both cases. -/
theorem c7_density_policy (impT : Bool) (mf maxT Z T m0 : ℚ)
    (hpos : 0 < maxT) (hhot : maxT < T) :
    (setMassDensityPolicy true impT mf maxT).maxTemperature
        = (if impT then maxT else 0) ∧
    (setMassDensityPolicy false impT mf maxT).maxTemperature = 0 ∧
    (setMassDensityPolicy true impT mf maxT).useMetallicity = true ∧
    (setMassDensityPolicy false impT mf maxT).useMetallicity = true ∧
    effectiveCellMass (setMassDensityPolicy true true mf maxT) Z T m0 = 0 ∧
    effectiveCellMass (setMassDensityPolicy false impT mf maxT) Z T m0
        = mf * (Z * m0) := by
  refine ⟨by simp [setMassDensityPolicy], rfl, by simp [setMassDensityPolicy], rfl, ?_, ?_⟩
  · unfold effectiveCellMass setMassDensityPolicy
    simp only [if_true]
    rw [if_pos]
    exact ⟨hpos, hhot⟩
  · unfold effectiveCellMass setMassDensityPolicy
    norm_num

/-- C7 witness: dust with importTemperature disabled keeps cutoff 0 while
maxTemperature = 10000, a dust cell at 20000 with cutoff 10000 enabled gets
zero mass, and a gas cell at 20000 keeps its metallicity-scaled mass. -/
theorem c7_witness :
    (0 : ℚ) < 10000 ∧ (10000 : ℚ) < 20000 ∧
    ((setMassDensityPolicy true false 1 10000).maxTemperature = (if false then (10000 : ℚ) else 0) ∧
     (setMassDensityPolicy false false 1 10000).maxTemperature = 0 ∧
     (setMassDensityPolicy true false 1 10000).useMetallicity = true ∧
     (setMassDensityPolicy false false 1 10000).useMetallicity = true ∧
     effectiveCellMass (setMassDensityPolicy true true 1 10000) (1/100) 20000 1 = 0 ∧
     effectiveCellMass (setMassDensityPolicy false false 1 10000) (1/100) 20000 1
        = 1 * (1/100 * 1)) :=
  ⟨by norm_num, by norm_num,
    c7_density_policy false 1 10000 (1/100) 20000 1 (by norm_num) (by norm_num)⟩

/-- C8: for every wavelength and every parameter vector
[logU, Z, IonisingLum, EmissionBool] with EmissionBool = 0, the specific
luminosity of both gas SED families is exactly 0, whatever the tabulated
values. -/
theorem c8_emission_flag_zero (table : ℚ → ℚ → ℚ → ℚ)
    (wavelength logU Z ionLum : ℚ) :
    gasContinuumEmissionSEDFamily.specificLuminosity table wavelength
        [logU, Z, ionLum, 0] = 0 ∧
    gasLineEmissionSEDFamily.specificLuminosity table wavelength
        [logU, Z, ionLum, 0] = 0 := by
  constructor <;>
    simp [gasContinuumEmissionSEDFamily.specificLuminosity,
      gasLineEmissionSEDFamily.specificLuminosity]

/-- C9: at every position where the mix mass is nonzero, massDensity(x)
equals numberDensity(x) times mix(x).mass, in both the holdsNumber = true
and holdsNumber = false cases of the snapshot. -/
theorem c9_mass_vs_number_density (m : ImportedMedium) (snap : SnapshotData)
    (x : Pos3) (hs : m.snapshot = some snap) (hm : (m.mix x).mass ≠ 0) :
    m.massDensity x = m.numberDensity x * (m.mix x).mass := by
  rw [massDensity_some m snap x hs, numberDensity_some m snap x hs]
  by_cases hh : snap.holdsNumber
  · rw [if_pos hh, if_pos hh]
  · rw [if_neg hh, if_neg hh, div_mul_cancel₀ _ hm]

/-- C9 witness: on a concrete mass-holding snapshot of density 6 and a fixed
mix of mass 2, massDensity = 6 equals numberDensity = 3 times mass = 2. -/
theorem c9_witness :
    mediumEx.snapshot = some snapEx ∧
    (mediumEx.mix (0, 0, 0)).mass ≠ 0 ∧
    mediumEx.massDensity (0, 0, 0)
      = mediumEx.numberDensity (0, 0, 0) * (mediumEx.mix (0, 0, 0)).mass :=
  ⟨rfl, by norm_num [ImportedMedium.mix, mediumEx],
    c9_mass_vs_number_density mediumEx snapEx (0, 0, 0) rfl
      (by norm_num [ImportedMedium.mix, mediumEx])⟩

/-- C10: bulkVelocity(x) is the zero vector whenever importVelocity is
disabled or the simulation is oligochromatic — even if importVelocity is
enabled — and is the snapshot's velocity at x when importVelocity is
enabled and the simulation is not oligochromatic. -/
theorem c10_bulk_velocity (m : ImportedMedium) (oligochromatic : Bool) (x : Pos3) :
    ((m.importVelocity = false ∨ oligochromatic = true) →
      m.bulkVelocity oligochromatic x = (0, 0, 0)) ∧
    (∀ snap, m.snapshot = some snap → m.importVelocity = true →
      oligochromatic = false →
      m.bulkVelocity oligochromatic x = snap.velocity x) := by
  constructor
  · intro hcase
    unfold ImportedMedium.bulkVelocity ImportedMedium.hasVelocity
    rcases hcase with h | h <;> rw [h] <;> simp
  · intro snap hs hv ho
    unfold ImportedMedium.bulkVelocity ImportedMedium.hasVelocity
    rw [hs, hv, ho]
    simp

/-- C10 witness: with importVelocity enabled, an oligochromatic run yields
the zero vector while a panchromatic run yields the snapshot's velocity. -/
theorem c10_witness :
    mediumEx.importVelocity = true ∧
    mediumEx.bulkVelocity true (0, 0, 0) = (0, 0, 0) ∧
    mediumEx.bulkVelocity false (0, 0, 0) = snapEx.velocity (0, 0, 0) :=
  ⟨rfl, (c10_bulk_velocity mediumEx true (0, 0, 0)).1 (Or.inr rfl),
    (c10_bulk_velocity mediumEx false (0, 0, 0)).2 snapEx rfl rfl rfl⟩
